import Mathlib

/-!
Verification of the Data Cleaning & Normalization Pipeline
(`data_cleaning.py`, class `DataCleaner`).

Shallow embedding notes:
* A pandas `DataFrame` is modeled as `Dataset`: an ordered list of named,
  typed columns plus a list of rows (one `Cell` per declared column).
  A `Cell` is `Option Value`; `none` is the missing marker (NaN/None).
* Floating-point arithmetic is modeled as exact rational arithmetic (`ℚ`).
  The one irrational operation (the square root taken by StandardScaler's
  population standard deviation) is modeled by an executable integer-sqrt
  approximation; no theorem below depends on the scaled magnitudes.
* Python exceptions are modeled by `Except CleanError`.  The source raises
  `ValueError` everywhere; the spec's taxonomy maps them to distinct
  categories, modeled here as distinct `CleanError` constructors
  (`emptyDataFrame` = ValidationError; `unsupportedOperations`,
  `unsupportedOutlierMethod`, `unsupportedNormalizationMethod` =
  ConfigurationError).  The outer `except ... raise ValueError(f"Error
  cleaning data: ...")` wrapper only rewrites the message, so it is not
  modeled separately.
* The mutable fields `self.original_df`, `self.cleaned_df`,
  `self.cleaning_report` are modeled as the fields of `PipelineState`;
  the dataset object the caller passed in is recorded in the extra field
  `caller`, which no stage ever writes (the source copies `df` on entry
  and every subsequent write targets `self.*`).
* The per-call parameters the public wrappers store on the instance
  (`missing_strategy`, `outlier_method`, `outlier_threshold`,
  `normalization_method`) are modeled as `CleanerParams`; the `getattr`
  defaults of `clean_data` are `defaultParams`.
* A Python `set` of column names (`columns_modified`) is modeled as a
  duplicate-free list in insertion order; `list(set)` at finalization is
  the identity on this representation (the source applies no sort).
-/

namespace DataCanvas

/-- Decidable equality of `Except` values, used to state concrete runs of
the pipeline. -/
instance {ε α : Type} [DecidableEq ε] [DecidableEq α] : DecidableEq (Except ε α) := fun a b =>
  match a, b with
  | Except.ok x, Except.ok y =>
    match decEq x y with
    | isTrue h => isTrue (by rw [h])
    | isFalse h => isFalse (by intro hc; cases hc; exact h rfl)
  | Except.error x, Except.error y =>
    match decEq x y with
    | isTrue h => isTrue (by rw [h])
    | isFalse h => isFalse (by intro hc; cases hc; exact h rfl)
  | Except.ok _, Except.error _ => isFalse (by intro hc; cases hc)
  | Except.error _, Except.ok _ => isFalse (by intro hc; cases hc)

/-- A cell value: pandas numeric scalars are modeled as `ℚ`, everything
else (object dtype) as `String`. -/
inductive Value where
  | num : ℚ → Value
  | str : String → Value
deriving DecidableEq

/-- The missing marker (`NaN`/`None`) is `none`. -/
abbrev Cell := Option Value

/-- Declared column dtype: `numeric` models `int64`/`float64`
(what `select_dtypes(include=['int64','float64'])` and
`pd.api.types.is_numeric_dtype` select), `categorical` models object
dtype. -/
inductive ColType where
  | numeric
  | categorical
deriving DecidableEq

/-- A DataFrame: ordered named, typed columns and a list of rows. -/
structure Dataset where
  colNames : List String
  colTypes : List ColType
  rows : List (List Cell)
deriving DecidableEq

def Dataset.ncols (d : Dataset) : Nat := d.colNames.length

def Dataset.nrows (d : Dataset) : Nat := d.rows.length

/-- `df.shape` = (row count, column count). -/
def Dataset.shape (d : Dataset) : Nat × Nat := (d.nrows, d.ncols)

/-- `df.empty`: true iff either axis has length zero. -/
def Dataset.isEmpty (d : Dataset) : Bool := d.nrows == 0 || d.ncols == 0

/-- The cells of column `i` (one per row). -/
def Dataset.col (d : Dataset) (i : Nat) : List Cell :=
  d.rows.map (fun r => r.getD i none)

/-- Overwrite column `i` with the given cells (one per row). -/
def Dataset.setCol (d : Dataset) (i : Nat) (cs : List Cell) : Dataset :=
  { d with rows := List.zipWith (fun r c => r.set i c) d.rows cs }

/-- Whether column `i` has numeric dtype. -/
def Dataset.isNumericCol (d : Dataset) (i : Nat) : Bool :=
  match d.colTypes.getD i ColType.categorical with
  | ColType.numeric => true
  | ColType.categorical => false

/-- Indices of the numeric columns, in declaration order
(`select_dtypes(include=['int64','float64']).columns`). -/
def numericIndices (d : Dataset) : List Nat :=
  (List.range d.ncols).filter (fun i => d.isNumericCol i)

/-- The numeric values of a column, skipping missing cells (pandas
statistics skip NaN). -/
def numVals (cells : List Cell) : List ℚ :=
  cells.filterMap (fun c =>
    match c with
    | some (Value.num q) => some q
    | _ => none)

/-- `isnull().sum()` for a column. -/
def missingCount (cells : List Cell) : Nat :=
  (cells.filter (fun c => c.isNone)).length

/-- True iff the cell is missing or numeric (well-typedness of a numeric
dtype column: pandas numeric columns cannot hold strings). -/
def cellNumOrMissing (c : Cell) : Bool :=
  match c with
  | none => true
  | some (Value.num _) => true
  | some (Value.str _) => false

/-- `fillna(v)`: replace each missing cell with `v`.  The source calls
`fillna` with a value that may itself be NaN (the mean of an all-missing
column); pandas then fills nothing, modeled by the `none` case. -/
def fillCells (cells : List Cell) (v : Option Value) : List Cell :=
  match v with
  | none => cells
  | some w => cells.map (fun c =>
      match c with
      | none => some w
      | some x => some x)

/-- Column mean (`Series.mean()`), `none` when there is no numeric value
(pandas returns NaN). -/
def listMean (l : List ℚ) : Option ℚ :=
  if l = [] then none else some (l.sum / (l.length : ℚ))

/-- Insertion step of an insertion sort on rationals. -/
def insertSorted (x : ℚ) : List ℚ → List ℚ
  | [] => [x]
  | y :: ys => if x ≤ y then x :: y :: ys else y :: insertSorted x ys

/-- Ascending sort of a list of rationals. -/
def sortQ (l : List ℚ) : List ℚ := l.foldr insertSorted []

/-- Column median (`Series.median()`): middle element of the sorted
values, average of the two middle elements for even length, `none`
(NaN) for an empty list. -/
def listMedian (l : List ℚ) : Option ℚ :=
  let s := sortQ l
  let n := s.length
  if n = 0 then none
  else if n % 2 = 1 then some (s.getD (n / 2) 0)
  else some ((s.getD (n / 2 - 1) 0 + s.getD (n / 2) 0) / 2)

/-- `Series.quantile(q)` with pandas' default linear interpolation,
`none` for an empty list. -/
def listQuantile (l : List ℚ) (q : ℚ) : Option ℚ :=
  let s := sortQ l
  let n := s.length
  if n = 0 then none
  else
    let h : ℚ := q * ((n : ℚ) - 1)
    let lo : Nat := h.floor.toNat
    let x0 : ℚ := s.getD lo 0
    some (x0 + (h - (h.floor : ℚ)) * (s.getD (lo + 1) x0 - x0))

/-- Deduplication keeping the first occurrence, relative order preserved:
the embedding of `DataFrame.drop_duplicates()` (and, on values, of the
distinct candidates scanned by `Series.mode()`).  `seen` is the
accumulator of already-kept elements. -/
def dedupFirstAux {α : Type} [DecidableEq α] (seen : List α) : List α → List α
  | [] => []
  | r :: rs =>
    if r ∈ seen then dedupFirstAux seen rs
    else r :: dedupFirstAux (seen ++ [r]) rs

def dedupKeepFirst {α : Type} [DecidableEq α] (l : List α) : List α :=
  dedupFirstAux [] l

/-- Total order used to break ties between mode candidates (pandas
`mode()` returns the tied values sorted and the source takes index 0). -/
def valueLe : Value → Value → Bool
  | Value.num a, Value.num b => decide (a ≤ b)
  | Value.num _, Value.str _ => true
  | Value.str _, Value.num _ => false
  | Value.str a, Value.str b => decide (a ≤ b)

/-- `Series.mode()[0]`: a most frequent non-missing value, ties broken by
`valueLe`; `none` when there is no non-missing value (empty mode). -/
def listMode (l : List Value) : Option Value :=
  match dedupKeepFirst l with
  | [] => none
  | v :: vs =>
    some (vs.foldl (fun best c =>
      if l.count c > l.count best then c
      else if l.count c = l.count best && valueLe c best then c
      else best) v)

/-- Per-column sub-report of the missing-value stage
(`missing_report[column]`). -/
structure MissingColReport where
  initial_missing : Nat
  strategy_used : String
  remaining_missing : Nat
deriving DecidableEq

/-- Sub-report of the duplicate-removal stage. -/
structure DupReport where
  rows_removed : Nat
  percentage : ℚ
deriving DecidableEq

/-- Per-column sub-report of the outlier stage. -/
structure OutlierColReport where
  outliers_found : Nat
  percentage : ℚ
  method : String
  threshold : ℚ
deriving DecidableEq

/-- Sub-report of the normalization stage.  `empty` models the empty dict
assigned when there are no numeric columns.  The `describe()` snapshots
(`original_stats` / `normalized_stats`) are omitted: no claim concerns
them. -/
inductive NormalizeReport where
  | empty
  | filled (method : String) (columns_normalized : Nat) (columns : List String)
deriving DecidableEq

/-- `cleaning_report['operations']`: one optional sub-report per stage
(`none` = key absent because the stage did not run). -/
structure OperationsReport where
  duplicates : Option DupReport
  missing_values : Option (List (String × MissingColReport))
  outliers : Option (List (String × OutlierColReport))
  normalization : Option NormalizeReport
deriving DecidableEq

/-- `self.cleaning_report`.  `columns_modified` is the Python set of
touched column names, modeled as a duplicate-free list in insertion
order; `final_shape` / `total_rows_removed` are `none` until
finalization. -/
structure Report where
  original_shape : Nat × Nat
  operations : OperationsReport
  columns_modified : List String
  final_shape : Option (Nat × Nat)
  total_rows_removed : Option Int
deriving DecidableEq

/-- Error taxonomy.  The source raises `ValueError` in all cases; the
spec classifies `emptyDataFrame` as ValidationError and the three
`unsupported*` constructors as ConfigurationError.  No
TypeMismatchError exists anywhere in the source. -/
inductive CleanError where
  | emptyDataFrame
  | unsupportedOperations (invalid : List String)
  | unsupportedOutlierMethod (method : String)
  | unsupportedNormalizationMethod (method : String)
deriving DecidableEq

/-- Spec taxonomy: which errors are ConfigurationErrors. -/
def CleanError.isConfigurationError : CleanError → Bool
  | CleanError.unsupportedOperations _ => true
  | CleanError.unsupportedOutlierMethod _ => true
  | CleanError.unsupportedNormalizationMethod _ => true
  | CleanError.emptyDataFrame => false

/-- The per-call parameters that the public wrapper methods store as
mutable fields on the `DataCleaner` instance before delegating to
`clean_data` (`self.missing_strategy`, `self.outlier_method`,
`self.outlier_threshold`, `self.normalization_method`). -/
structure CleanerParams where
  missing_strategy : String
  outlier_method : String
  outlier_threshold : ℚ
  normalization_method : String
deriving DecidableEq

/-- The `getattr(self, ..., default)` fallbacks used by `clean_data` on a
fresh instance whose wrapper methods were never called. -/
def defaultParams : CleanerParams :=
  { missing_strategy := "auto"
    outlier_method := "zscore"
    outlier_threshold := 3
    normalization_method := "standard" }

/-- The mutable state of one `clean_data` run.  `caller` is the dataset
object the caller passed in (the source never writes through it after
`df.copy()`); `original`/`cleaned`/`report` are `self.original_df`,
`self.cleaned_df`, `self.cleaning_report`. -/
structure PipelineState where
  caller : Dataset
  original : Dataset
  cleaned : Dataset
  report : Report
deriving DecidableEq

/-- `set.add(name)`: append iff not already present (insertion order). -/
def addMod (l : List String) (x : String) : List String :=
  if x ∈ l then l else l ++ [x]

/-- `set.update(names)`: add each name in turn. -/
def addMods (l : List String) (xs : List String) : List String :=
  xs.foldl addMod l

/-- The fill value the source's `"auto"` strategy passes to `fillna` for
one column, or `none` when the source performs no `fillna` call at all
(non-`"auto"` strategy, or empty mode).  `some none` means a `fillna`
call whose argument is NaN (mean/median of an all-missing column). -/
def missingFillValue (strategy : String) (nrows : Nat) (numeric : Bool)
    (cells : List Cell) : Option (Option Value) :=
  if strategy = "auto" then
    if numeric then
      if ((missingCount cells : ℚ) / (nrows : ℚ)) < 5 / 100 then
        some ((listMean (numVals cells)).map Value.num)
      else
        some ((listMedian (numVals cells)).map Value.num)
    else
      match listMode (cells.filterMap id) with
      | some m => some (some m)
      | none => none
  else none

/-- The final `strategy_used` field recorded for one column: initialized
to the requested strategy and overwritten to `mean`/`median`/`mode` in
the corresponding `"auto"` branch. -/
def missingStrategyUsed (strategy : String) (nrows : Nat) (numeric : Bool)
    (cells : List Cell) : String :=
  if strategy = "auto" then
    if numeric then
      if ((missingCount cells : ℚ) / (nrows : ℚ)) < 5 / 100 then "mean"
      else "median"
    else
      match listMode (cells.filterMap id) with
      | some _ => "mode"
      | none => strategy
  else strategy

/-- The column's cells after the missing-value stage processed it. -/
def missingFillCells (strategy : String) (nrows : Nat) (numeric : Bool)
    (cells : List Cell) : List Cell :=
  if missingCount cells = 0 then cells
  else
    match missingFillValue strategy nrows numeric cells with
    | none => cells
    | some v => fillCells cells v

/-- State threaded through the missing-value loop: the working dataset,
the `columns_modified` set, and the accumulated `missing_report`. -/
abbrev MState := Dataset × List String × List (String × MissingColReport)

/-- One iteration of `for column in self.cleaned_df.columns` in
`_handle_missing_values` (columns are addressed by index `i`). -/
def handleMissingColumn (strategy : String) (st : MState) (i : Nat) : MState :=
  let d := st.1
  let mods := st.2.1
  let rep := st.2.2
  let cells := d.col i
  let mc := missingCount cells
  if mc = 0 then st
  else
    let name := d.colNames.getD i ""
    match missingFillValue strategy d.nrows (d.isNumericCol i) cells with
    | none =>
      (d, addMod mods name,
        rep ++ [(name,
          { initial_missing := mc
            strategy_used := missingStrategyUsed strategy d.nrows (d.isNumericCol i) cells
            remaining_missing := missingCount (d.col i) })])
    | some v =>
      let d2 := d.setCol i (fillCells cells v)
      (d2, addMod mods name,
        rep ++ [(name,
          { initial_missing := mc
            strategy_used := missingStrategyUsed strategy d.nrows (d.isNumericCol i) cells
            remaining_missing := missingCount (d2.col i) })])

/-- `_handle_missing_values`: loop over all columns, then store the
accumulated per-column report under `operations['missing_values']`.
This stage raises no error. -/
def handleMissingStage (p : CleanerParams) (s : PipelineState) : PipelineState :=
  let res := (List.range s.cleaned.ncols).foldl
    (handleMissingColumn p.missing_strategy)
    (s.cleaned, s.report.columns_modified, [])
  { s with
      cleaned := res.1
      report := { s.report with
        columns_modified := res.2.1
        operations := { s.report.operations with missing_values := some res.2.2 } } }

/-- `_remove_duplicates`: `drop_duplicates()` keeps the first occurrence
of each row; reports removed count and percentage; if any row was
removed, every column name is added to `columns_modified`. -/
def removeDuplicatesStage (s : PipelineState) : PipelineState :=
  let initial := s.cleaned.nrows
  let newRows := dedupKeepFirst s.cleaned.rows
  let removed := initial - newRows.length
  let mods :=
    if 0 < removed then addMods s.report.columns_modified s.cleaned.colNames
    else s.report.columns_modified
  { s with
      cleaned := { s.cleaned with rows := newRows }
      report := { s.report with
        columns_modified := mods
        operations := { s.report.operations with
          duplicates := some
            { rows_removed := removed
              percentage :=
                if 0 < initial then ((removed : ℚ) / (initial : ℚ)) * 100
                else 0 } } } }

/-- Sum of squared deviations from the mean (numerator of the variance).
The sample standard deviation `Series.std()` (ddof=1) is
`sqrt (sampleVarNum vals / (n - 1))`; it is zero exactly when
`sampleVarNum vals = 0` (and NaN for `n ≤ 1`, which also forces
`sampleVarNum vals = 0`). -/
def sampleVarNum (vals : List ℚ) : ℚ :=
  let m := (listMean vals).getD 0
  (vals.map (fun v => (v - m) ^ 2)).sum

/-- Exact-arithmetic embedding of the z-score test
`|x - mean| / std > threshold` on one cell, with IEEE semantics:
a missing cell gives a NaN z-score (never flagged); a zero sample std
gives `0/0 = NaN` when `x = mean` (not flagged) and `±inf` otherwise
(flagged for any finite threshold); otherwise both sides are squared,
which for `t ≥ 0` is equivalent to the source's comparison, and a
negative threshold is always exceeded by `|z| ≥ 0`. -/
def zscoreFlagCell (vals : List ℚ) (t : ℚ) (c : Cell) : Bool :=
  match c with
  | some (Value.num x) =>
    let m := (listMean vals).getD 0
    if sampleVarNum vals = 0 then decide (x ≠ m)
    else if t < 0 then true
    else decide ((x - m) ^ 2 * ((vals.length : ℚ) - 1) > t ^ 2 * sampleVarNum vals)
  | _ => false

/-- IQR outlier test on one cell: flagged iff outside
`[Q1 - 1.5*IQR, Q3 + 1.5*IQR]`; missing cells never compare true. -/
def iqrFlagCell (vals : List ℚ) (c : Cell) : Bool :=
  match c with
  | some (Value.num x) =>
    match listQuantile vals (1 / 4), listQuantile vals (3 / 4) with
    | some q1, some q3 =>
      let iqr := q3 - q1
      decide (x < q1 - 3 / 2 * iqr) || decide (x > q3 + 3 / 2 * iqr)
    | _, _ => false
  | _ => false

/-- Per-cell outlier flags for one column, or the `ValueError` the source
raises (inside the loop) for an unsupported method. -/
def outlierFlags (method : String) (t : ℚ) (cells : List Cell) :
    Except CleanError (List Bool) :=
  if method = "zscore" then
    Except.ok (cells.map (zscoreFlagCell (numVals cells) t))
  else if method = "iqr" then
    Except.ok (cells.map (iqrFlagCell (numVals cells)))
  else Except.error (CleanError.unsupportedOutlierMethod method)

/-- State threaded through the outlier loop. -/
abbrev OState := Dataset × List String × List (String × OutlierColReport)

/-- One iteration of `for column in numeric_columns` in
`_handle_outliers`: compute flags, and when at least one cell is
flagged, record the column and replace the flagged cells with the
column median computed from the column before any replacement. -/
def outStep (method : String) (t : ℚ) (st : OState) (i : Nat) :
    Except CleanError OState :=
  let d := st.1
  let mods := st.2.1
  let rep := st.2.2
  let cells := d.col i
  match outlierFlags method t cells with
  | Except.error e => Except.error e
  | Except.ok flags =>
    let nOut := flags.count true
    if nOut = 0 then Except.ok st
    else
      let name := d.colNames.getD i ""
      let repl : Cell := (listMedian (numVals cells)).map Value.num
      let newCells := List.zipWith
        (fun c f => if f then (if repl.isSome then repl else c) else c) cells flags
      Except.ok (d.setCol i newCells, addMod mods name,
        rep ++ [(name,
          { outliers_found := nOut
            percentage := ((nOut : ℚ) / (d.nrows : ℚ)) * 100
            method := method
            threshold := t })])

/-- `_handle_outliers`: loop over the numeric columns; the unsupported
method error is raised inside the loop, so a dataset without numeric
columns never reaches it. -/
def handleOutliersStage (p : CleanerParams) (s : PipelineState) :
    Except CleanError PipelineState := do
  let res ← (numericIndices s.cleaned).foldlM
    (outStep p.outlier_method p.outlier_threshold)
    (s.cleaned, s.report.columns_modified, [])
  Except.ok { s with
    cleaned := res.1
    report := { s.report with
      columns_modified := res.2.1
      operations := { s.report.operations with outliers := some res.2.2 } } }

/-- Executable rational stand-in for the real square root (used only for
StandardScaler's irrational scale; exact when numerator and denominator
are perfect squares, which is the only case any theorem could touch —
and none does). -/
def ratSqrtApprox (q : ℚ) : ℚ :=
  (Int.sqrt q.num : ℚ) / (Nat.sqrt q.den : ℚ)

/-- StandardScaler's per-column scale: population standard deviation
(ddof=0), with a zero scale replaced by 1 (sklearn
`_handle_zeros_in_scale`). -/
def stdScale (vals : List ℚ) : ℚ :=
  let n := vals.length
  let v := if n = 0 then 0 else sampleVarNum vals / (n : ℚ)
  if v = 0 then 1 else ratSqrtApprox v

/-- MinMaxScaler's per-column scale: `max - min`, zero replaced by 1. -/
def minmaxScale (vals : List ℚ) : ℚ :=
  let mn := vals.foldl min (vals.headD 0)
  let mx := vals.foldl max (vals.headD 0)
  if mx - mn = 0 then 1 else mx - mn

/-- Transform one numeric column under the given (already validated)
normalization method; missing cells stay missing (sklearn propagates
NaN). -/
def normalizeColumn (method : String) (cells : List Cell) : List Cell :=
  let vals := numVals cells
  if method = "standard" then
    let m := (listMean vals).getD 0
    cells.map (fun c =>
      match c with
      | some (Value.num x) => some (Value.num ((x - m) / stdScale vals))
      | other => other)
  else
    let mn := vals.foldl min (vals.headD 0)
    cells.map (fun c =>
      match c with
      | some (Value.num x) => some (Value.num ((x - mn) / minmaxScale vals))
      | other => other)

/-- `_normalize_data`: when at least one numeric column exists, dispatch
on the method (unknown method = error, raised only in this branch),
scale the numeric block column by column, record the filled report and
mark the numeric columns modified; otherwise store the empty report. -/
def normalizeStage (p : CleanerParams) (s : PipelineState) :
    Except CleanError PipelineState :=
  let nidx := numericIndices s.cleaned
  if 0 < nidx.length then
    if p.normalization_method = "standard" ∨ p.normalization_method = "minmax" then
      let d2 := nidx.foldl
        (fun d j => Dataset.setCol d j (normalizeColumn p.normalization_method (d.col j)))
        s.cleaned
      let names := nidx.map (fun j => s.cleaned.colNames.getD j "")
      Except.ok { s with
        cleaned := d2
        report := { s.report with
          columns_modified := addMods s.report.columns_modified names
          operations := { s.report.operations with
            normalization := some
              (NormalizeReport.filled p.normalization_method nidx.length names) } } }
    else Except.error (CleanError.unsupportedNormalizationMethod p.normalization_method)
  else
    Except.ok { s with
      report := { s.report with
        operations := { s.report.operations with
          normalization := some NormalizeReport.empty } } }

/-- The four supported operation names, exactly as listed in
`self.supported_operations`. -/
def supported_operations : List String :=
  ["Remove duplicates", "Handle missing values", "Remove outliers", "Normalize data"]

/-- `[op for op in operations if op not in self.supported_operations]`. -/
def invalidOps (operations : List String) : List String :=
  operations.filter (fun op => decide (op ∉ supported_operations))

/-- The dispatch in the `for operation in operations` loop of
`clean_data`.  After validation the final catch-all branch is
unreachable. -/
def applyOperation (p : CleanerParams) (s : PipelineState) (op : String) :
    Except CleanError PipelineState :=
  if op = "Remove duplicates" then Except.ok (removeDuplicatesStage s)
  else if op = "Handle missing values" then Except.ok (handleMissingStage p s)
  else if op = "Remove outliers" then handleOutliersStage p s
  else if op = "Normalize data" then normalizeStage p s
  else Except.ok s

/-- The report as initialized at the top of `clean_data`. -/
def initialReport (df : Dataset) : Report :=
  { original_shape := df.shape
    operations :=
      { duplicates := none, missing_values := none
        outliers := none, normalization := none }
    columns_modified := []
    final_shape := none
    total_rows_removed := none }

/-- The pipeline state right after `self.original_df = df.copy();
self.cleaned_df = df.copy()` and the report initialization. -/
def initState (df : Dataset) : PipelineState :=
  { caller := df, original := df, cleaned := df, report := initialReport df }

/-- The final statistics block of `clean_data`: `final_shape`,
`total_rows_removed`, and the `list(...)` conversion of
`columns_modified` (which in this model is the identity on the
insertion-ordered representation — the source applies no sort). -/
def finalizeReport (s : PipelineState) : PipelineState :=
  { s with report := { s.report with
      final_shape := some s.cleaned.shape
      total_rows_removed := some ((s.original.nrows : Int) - (s.cleaned.nrows : Int))
      columns_modified := s.report.columns_modified } }

/-- `clean_data`, kept at the level of the full pipeline state. -/
def cleanDataState (p : CleanerParams) (df : Dataset) (operations : List String) :
    Except CleanError PipelineState :=
  if df.isEmpty then Except.error CleanError.emptyDataFrame
  else if invalidOps operations ≠ [] then
    Except.error (CleanError.unsupportedOperations (invalidOps operations))
  else do
    let s ← operations.foldlM (applyOperation p) (initState df)
    Except.ok (finalizeReport s)

/-- `clean_data(df, operations) -> (cleaned_df, report)`. -/
def clean_data (p : CleanerParams) (df : Dataset) (operations : List String) :
    Except CleanError (Dataset × Report) :=
  (cleanDataState p df operations).map (fun s => (s.cleaned, s.report))

/-! ## Basic list lemmas -/

theorem getD_set_self {α : Type} (r : List α) (i : Nat) (c dflt : α)
    (h : i < r.length) : (r.set i c).getD i dflt = c := by
  induction r generalizing i with
  | nil => simp at h
  | cons a as ih =>
    cases i with
    | zero => rfl
    | succ n => exact ih n (Nat.lt_of_succ_lt_succ h)

theorem getD_set_ne {α : Type} (r : List α) (i j : Nat) (c dflt : α)
    (hij : i ≠ j) : (r.set j c).getD i dflt = r.getD i dflt := by
  induction r generalizing i j with
  | nil => rfl
  | cons a as ih =>
    cases j with
    | zero =>
      cases i with
      | zero => exact absurd rfl hij
      | succ n => rfl
    | succ m =>
      cases i with
      | zero => rfl
      | succ n => exact ih n m (fun h => hij (by rw [h]))

theorem map_getD_zipWith_set_ne {α : Type} (rows : List (List α)) (cs : List α)
    (i j : Nat) (dflt : α) (h : cs.length = rows.length) (hij : i ≠ j) :
    (List.zipWith (fun r c => r.set j c) rows cs).map (fun r => r.getD i dflt)
      = rows.map (fun r => r.getD i dflt) := by
  induction rows generalizing cs with
  | nil => simp
  | cons r rs ih =>
    cases cs with
    | nil => simp at h
    | cons c cs2 =>
      simp only [List.zipWith_cons_cons, List.map_cons]
      rw [getD_set_ne r i j c dflt hij, ih cs2 (by simpa using h)]

theorem map_getD_zipWith_set_self {α : Type} (rows : List (List α)) (cs : List α)
    (i : Nat) (dflt : α) (h : cs.length = rows.length)
    (hlen : ∀ r ∈ rows, i < r.length) :
    (List.zipWith (fun r c => r.set i c) rows cs).map (fun r => r.getD i dflt)
      = cs := by
  induction rows generalizing cs with
  | nil => cases cs with
    | nil => simp
    | cons c cs2 => simp at h
  | cons r rs ih =>
    cases cs with
    | nil => simp at h
    | cons c cs2 =>
      simp only [List.zipWith_cons_cons, List.map_cons]
      rw [getD_set_self r i c dflt (hlen r (by simp)), ih cs2 (by simpa using h)]
      intro r2 hr2
      exact hlen r2 (by simp [hr2])

theorem length_zipWith_set {α : Type} (rows : List (List α)) (cs : List α)
    (j : Nat) (h : cs.length = rows.length) :
    (List.zipWith (fun r c => r.set j c) rows cs).length = rows.length := by
  rw [List.length_zipWith, h, Nat.min_self]

theorem length_mem_zipWith_set {α : Type} (rows : List (List α)) (cs : List α)
    (j : Nat) (k : Nat) (hlen : ∀ r ∈ rows, r.length = k) :
    ∀ r2 ∈ List.zipWith (fun r c => r.set j c) rows cs, r2.length = k := by
  induction rows generalizing cs with
  | nil => simp
  | cons r rs ih =>
    cases cs with
    | nil => simp
    | cons c cs2 =>
      intro r2 hr2
      simp only [List.zipWith_cons_cons, List.mem_cons] at hr2
      rcases hr2 with h1 | h2
      · rw [h1, List.length_set]
        exact hlen r (by simp)
      · exact ih cs2 (fun r3 hr3 => hlen r3 (by simp [hr3])) r2 h2

/-! ## Lemmas about column access and update -/

theorem length_col (d : Dataset) (i : Nat) : (d.col i).length = d.nrows := by
  simp [Dataset.col, Dataset.nrows]

theorem setCol_colNames (d : Dataset) (i : Nat) (cs : List Cell) :
    (d.setCol i cs).colNames = d.colNames := rfl

theorem setCol_colTypes (d : Dataset) (i : Nat) (cs : List Cell) :
    (d.setCol i cs).colTypes = d.colTypes := rfl

theorem setCol_isNumericCol (d : Dataset) (i j : Nat) (cs : List Cell) :
    (d.setCol i cs).isNumericCol j = d.isNumericCol j := rfl

theorem setCol_ncols (d : Dataset) (i : Nat) (cs : List Cell) :
    (d.setCol i cs).ncols = d.ncols := rfl

theorem setCol_nrows (d : Dataset) (i : Nat) (cs : List Cell)
    (h : cs.length = d.nrows) : (d.setCol i cs).nrows = d.nrows := by
  simp only [Dataset.setCol, Dataset.nrows]
  exact length_zipWith_set d.rows cs i h

theorem col_setCol_ne (d : Dataset) (i j : Nat) (cs : List Cell)
    (h : cs.length = d.nrows) (hij : i ≠ j) :
    (d.setCol j cs).col i = d.col i := by
  simp only [Dataset.setCol, Dataset.col]
  exact map_getD_zipWith_set_ne d.rows cs i j none h hij

theorem col_setCol_self (d : Dataset) (i : Nat) (cs : List Cell)
    (h : cs.length = d.nrows) (hlen : ∀ r ∈ d.rows, i < r.length) :
    (d.setCol i cs).col i = cs := by
  simp only [Dataset.setCol, Dataset.col]
  exact map_getD_zipWith_set_self d.rows cs i none h hlen

theorem setCol_rowlens (d : Dataset) (i : Nat) (cs : List Cell) (k : Nat)
    (hlen : ∀ r ∈ d.rows, r.length = k) :
    ∀ r2 ∈ (d.setCol i cs).rows, r2.length = k := by
  simp only [Dataset.setCol]
  exact length_mem_zipWith_set d.rows cs i k hlen

/-! ## Lemmas about filling, statistics and mode -/

theorem length_fillCells (cells : List Cell) (v : Option Value) :
    (fillCells cells v).length = cells.length := by
  cases v with
  | none => rfl
  | some w => simp [fillCells]

theorem missingCount_fillCells_some (cells : List Cell) (w : Value) :
    missingCount (fillCells cells (some w)) = 0 := by
  induction cells with
  | nil => rfl
  | cons c cs ih =>
    cases c with
    | none => simpa [fillCells, missingCount] using ih
    | some x => simpa [fillCells, missingCount] using ih

theorem listMean_isSome (l : List ℚ) (h : l ≠ []) : (listMean l).isSome := by
  simp [listMean, h]

theorem length_insertSorted (x : ℚ) (l : List ℚ) :
    (insertSorted x l).length = l.length + 1 := by
  induction l with
  | nil => rfl
  | cons y ys ih =>
    by_cases h : x ≤ y
    · simp [insertSorted, h]
    · simp [insertSorted, h, ih]

theorem length_sortQ (l : List ℚ) : (sortQ l).length = l.length := by
  induction l with
  | nil => rfl
  | cons y ys ih =>
    simp only [sortQ, List.foldr_cons, length_insertSorted, List.length_cons]
    simpa [sortQ] using ih

theorem listMedian_isSome (l : List ℚ) (h : l ≠ []) : (listMedian l).isSome := by
  have hlen : (sortQ l).length = l.length := length_sortQ l
  have hne : (sortQ l).length ≠ 0 := by
    rw [hlen]
    simpa using fun hc => h (List.eq_nil_of_length_eq_zero hc)
  by_cases hodd : (sortQ l).length % 2 = 1
  · simp [listMedian, hne, hodd]
  · simp [listMedian, hne, hodd]

theorem mem_numVals (cells : List Cell) (q : ℚ)
    (h : some (Value.num q) ∈ cells) : q ∈ numVals cells := by
  simp only [numVals, List.mem_filterMap]
  exact ⟨some (Value.num q), h, rfl⟩

theorem dedupFirstAux_ne_nil {α : Type} [DecidableEq α] (l : List α) (x : α)
    (hx : x ∈ l) (seen : List α) (hseen : ∀ y ∈ l, y ∉ seen) :
    dedupFirstAux seen l ≠ [] := by
  cases l with
  | nil => simp at hx
  | cons r rs =>
    have : r ∉ seen := hseen r (by simp)
    simp [dedupFirstAux, this]

theorem listMode_isSome (l : List Value) (h : l ≠ []) : (listMode l).isSome := by
  cases hl : l with
  | nil => exact absurd hl h
  | cons v vs =>
    have hne : dedupKeepFirst l ≠ [] := by
      apply dedupFirstAux_ne_nil l v (by rw [hl]; simp)
      simp
    rcases hd : dedupKeepFirst l with _ | ⟨w, ws⟩
    · exact absurd hd hne
    · rw [← hl]
      simp [listMode, hd]

theorem isNumericCol_congr (d1 d2 : Dataset) (i : Nat)
    (h : d1.colTypes = d2.colTypes) : d1.isNumericCol i = d2.isNumericCol i := by
  simp [Dataset.isNumericCol, h]

/-! ## Lemmas about one step of the missing-value loop -/

theorem missingStep_colNames (strategy : String) (st : MState) (i : Nat) :
    ((handleMissingColumn strategy st i).1).colNames = st.1.colNames := by
  simp only [handleMissingColumn]
  split
  · rfl
  · split <;> rfl

theorem missingStep_colTypes (strategy : String) (st : MState) (i : Nat) :
    ((handleMissingColumn strategy st i).1).colTypes = st.1.colTypes := by
  simp only [handleMissingColumn]
  split
  · rfl
  · split <;> rfl

theorem missingStep_nrows (strategy : String) (st : MState) (i : Nat) :
    ((handleMissingColumn strategy st i).1).nrows = st.1.nrows := by
  simp only [handleMissingColumn]
  split
  · rfl
  · split
    · rfl
    · exact setCol_nrows _ _ _ (by rw [length_fillCells, length_col])

theorem missingStep_rowlens (strategy : String) (st : MState) (i : Nat) (k : Nat)
    (h : ∀ r ∈ st.1.rows, r.length = k) :
    ∀ r2 ∈ ((handleMissingColumn strategy st i).1).rows, r2.length = k := by
  simp only [handleMissingColumn]
  split
  · exact h
  · split
    · exact h
    · exact setCol_rowlens _ _ _ _ h

theorem missingStep_col_ne (strategy : String) (st : MState) (i j : Nat)
    (hij : i ≠ j) :
    ((handleMissingColumn strategy st j).1).col i = st.1.col i := by
  simp only [handleMissingColumn]
  split
  · rfl
  · split
    · rfl
    · exact col_setCol_ne _ _ _ _ (by rw [length_fillCells, length_col]) hij

theorem missingStep_col_self (strategy : String) (st : MState) (i : Nat)
    (hlen : ∀ r ∈ st.1.rows, i < r.length) :
    ((handleMissingColumn strategy st i).1).col i
      = missingFillCells strategy st.1.nrows (st.1.isNumericCol i) (st.1.col i) := by
  simp only [handleMissingColumn, missingFillCells]
  split
  · rfl
  · split
    · rfl
    · exact col_setCol_self _ _ _ (by rw [length_fillCells, length_col]) hlen

theorem missingStep_rep_mono (strategy : String) (st : MState) (i : Nat)
    (e : String × MissingColReport) (he : e ∈ st.2.2) :
    e ∈ (handleMissingColumn strategy st i).2.2 := by
  simp only [handleMissingColumn]
  split
  · exact he
  · split <;> exact List.mem_append_left _ he

/-- The report entry the loop records for column `i` of dataset `d`
(only recorded when the column has a missing cell). -/
def missingEntry (strategy : String) (d : Dataset) (i : Nat) :
    String × MissingColReport :=
  (d.colNames.getD i "",
    { initial_missing := missingCount (d.col i)
      strategy_used := missingStrategyUsed strategy d.nrows (d.isNumericCol i) (d.col i)
      remaining_missing :=
        missingCount (missingFillCells strategy d.nrows (d.isNumericCol i) (d.col i)) })

theorem missingEntry_congr (strategy : String) (d1 d2 : Dataset) (i : Nat)
    (hn : d1.colNames = d2.colNames) (ht : d1.colTypes = d2.colTypes)
    (hr : d1.nrows = d2.nrows) (hc : d1.col i = d2.col i) :
    missingEntry strategy d1 i = missingEntry strategy d2 i := by
  simp [missingEntry, hn, hr, hc, isNumericCol_congr d1 d2 i ht]

theorem missingStep_rep_self (strategy : String) (st : MState) (i : Nat)
    (hlen : ∀ r ∈ st.1.rows, i < r.length)
    (hmc : missingCount (st.1.col i) ≠ 0) :
    missingEntry strategy st.1 i ∈ (handleMissingColumn strategy st i).2.2 := by
  have hcol := missingStep_col_self strategy st i hlen
  simp only [handleMissingColumn] at hcol ⊢
  rw [if_neg hmc] at hcol ⊢
  simp only [missingEntry, missingFillCells, if_neg hmc]
  split
  · exact List.mem_append_right _ (by simp)
  · next v heq =>
    have : missingCount ((st.1.setCol i (fillCells (st.1.col i) v)).col i)
        = missingCount (fillCells (st.1.col i) v) := by
      rw [col_setCol_self _ _ _ (by rw [length_fillCells, length_col]) hlen]
    rw [this]
    exact List.mem_append_right _ (by simp)

/-! ## Lemmas about the whole missing-value loop -/

theorem missing_fold_colNames (strategy : String) (L : List Nat) (st : MState) :
    ((L.foldl (handleMissingColumn strategy) st).1).colNames = st.1.colNames := by
  induction L generalizing st with
  | nil => rfl
  | cons j L2 ih =>
    rw [List.foldl_cons, ih, missingStep_colNames]

theorem missing_fold_colTypes (strategy : String) (L : List Nat) (st : MState) :
    ((L.foldl (handleMissingColumn strategy) st).1).colTypes = st.1.colTypes := by
  induction L generalizing st with
  | nil => rfl
  | cons j L2 ih =>
    rw [List.foldl_cons, ih, missingStep_colTypes]

theorem missing_fold_nrows (strategy : String) (L : List Nat) (st : MState) :
    ((L.foldl (handleMissingColumn strategy) st).1).nrows = st.1.nrows := by
  induction L generalizing st with
  | nil => rfl
  | cons j L2 ih =>
    rw [List.foldl_cons, ih, missingStep_nrows]

theorem missing_fold_col_not_mem (strategy : String) (L : List Nat) (st : MState)
    (i : Nat) (hi : i ∉ L) :
    ((L.foldl (handleMissingColumn strategy) st).1).col i = st.1.col i := by
  induction L generalizing st with
  | nil => rfl
  | cons j L2 ih =>
    rw [List.foldl_cons, ih _ (fun h => hi (List.mem_cons_of_mem j h)),
      missingStep_col_ne]
    exact fun h => hi (h ▸ List.mem_cons_self j L2)

theorem missing_fold_col_mem (strategy : String) (L : List Nat) (st : MState)
    (i k : Nat) (hnd : L.Nodup) (hi : i ∈ L)
    (hrow : ∀ r ∈ st.1.rows, r.length = k) (hik : i < k) :
    ((L.foldl (handleMissingColumn strategy) st).1).col i
      = missingFillCells strategy st.1.nrows (st.1.isNumericCol i) (st.1.col i) := by
  induction L generalizing st with
  | nil => simp at hi
  | cons j L2 ih =>
    rw [List.foldl_cons]
    rcases List.mem_cons.mp hi with rfl | hi2
    · have hj : i ∉ L2 := (List.nodup_cons.mp hnd).1
      rw [missing_fold_col_not_mem strategy L2 _ i hj]
      exact missingStep_col_self strategy st i
        (fun r hr => by rw [hrow r hr]; exact hik)
    · have hij : i ≠ j := fun h => (List.nodup_cons.mp hnd).1 (h ▸ hi2)
      rw [ih _ (List.nodup_cons.mp hnd).2 hi2
        (missingStep_rowlens strategy st j k hrow),
        missingStep_nrows, missingStep_col_ne strategy st i j hij,
        isNumericCol_congr _ st.1 i (missingStep_colTypes strategy st j)]

theorem missing_fold_rep_mono (strategy : String) (L : List Nat) (st : MState)
    (e : String × MissingColReport) (he : e ∈ st.2.2) :
    e ∈ (L.foldl (handleMissingColumn strategy) st).2.2 := by
  induction L generalizing st with
  | nil => exact he
  | cons j L2 ih =>
    rw [List.foldl_cons]
    exact ih _ (missingStep_rep_mono strategy st j e he)

theorem missing_fold_rep_mem (strategy : String) (L : List Nat) (st : MState)
    (i k : Nat) (hnd : L.Nodup) (hi : i ∈ L)
    (hrow : ∀ r ∈ st.1.rows, r.length = k) (hik : i < k)
    (hmc : missingCount (st.1.col i) ≠ 0) :
    missingEntry strategy st.1 i ∈ (L.foldl (handleMissingColumn strategy) st).2.2 := by
  induction L generalizing st with
  | nil => simp at hi
  | cons j L2 ih =>
    rw [List.foldl_cons]
    rcases List.mem_cons.mp hi with rfl | hi2
    · exact missing_fold_rep_mono strategy L2 _ _
        (missingStep_rep_self strategy st i
          (fun r hr => by rw [hrow r hr]; exact hik) hmc)
    · have hij : i ≠ j := fun h => (List.nodup_cons.mp hnd).1 (h ▸ hi2)
      have hcne := missingStep_col_ne strategy st i j hij
      have hmc2 : missingCount (((handleMissingColumn strategy st j).1).col i) ≠ 0 := by
        rw [hcne]; exact hmc
      have := ih (handleMissingColumn strategy st j) (List.nodup_cons.mp hnd).2 hi2
        (missingStep_rowlens strategy st j k hrow) hmc2
      rw [missingEntry_congr strategy _ st.1 i (missingStep_colNames strategy st j)
        (missingStep_colTypes strategy st j) (missingStep_nrows strategy st j) hcne] at this
      exact this

theorem missing_fold_nonauto (strategy : String) (hna : strategy ≠ "auto")
    (L : List Nat) (st : MState) :
    (L.foldl (handleMissingColumn strategy) st).1 = st.1 ∧
    ∀ e ∈ (L.foldl (handleMissingColumn strategy) st).2.2,
      e ∈ st.2.2 ∨
      (e.2.strategy_used = strategy ∧ e.2.remaining_missing = e.2.initial_missing) := by
  induction L generalizing st with
  | nil => exact ⟨rfl, fun e he => Or.inl he⟩
  | cons j L2 ih =>
    rw [List.foldl_cons]
    have hstep :
        (handleMissingColumn strategy st j).1 = st.1 ∧
        ∀ e ∈ (handleMissingColumn strategy st j).2.2,
          e ∈ st.2.2 ∨
          (e.2.strategy_used = strategy ∧
            e.2.remaining_missing = e.2.initial_missing) := by
      simp only [handleMissingColumn, missingFillValue, missingStrategyUsed,
        if_neg hna]
      split
      · exact ⟨rfl, fun e he => Or.inl he⟩
      · refine ⟨rfl, fun e he => ?_⟩
        rcases List.mem_append.mp he with h1 | h2
        · exact Or.inl h1
        · simp only [List.mem_singleton] at h2
          subst h2
          exact Or.inr ⟨rfl, rfl⟩
    rcases ih (handleMissingColumn strategy st j) with ⟨hd, hrep⟩
    refine ⟨by rw [hd, hstep.1], fun e he => ?_⟩
    rcases hrep e he with h1 | h2
    · exact hstep.2 e h1
    · exact Or.inr h2

/-- The `"auto"` strategy removes all missing cells from a column that
has at least one missing and one non-missing cell (well-typed when
numeric): the mean/median/mode fill value exists and `fillna` replaces
every missing cell. -/
theorem missingCount_fillCells_auto (nrows : Nat) (numeric : Bool) (cells : List Cell)
    (hmc : missingCount cells ≠ 0)
    (hty : numeric = true → ∀ c ∈ cells, cellNumOrMissing c = true)
    (hsome : cells.any (fun c => c.isSome) = true) :
    missingCount (missingFillCells "auto" nrows numeric cells) = 0 := by
  obtain ⟨c, hc, hcs⟩ := List.any_eq_true.mp hsome
  simp only [missingFillCells, if_neg hmc, missingFillValue, if_pos rfl]
  obtain ⟨v, rfl⟩ := Option.isSome_iff_exists.mp hcs
  cases numeric with
  | true =>
    have hv := hty rfl (some v) hc
    cases v with
    | str a => simp [cellNumOrMissing] at hv
    | num q =>
      have hqv : q ∈ numVals cells := mem_numVals cells q hc
      have hne : numVals cells ≠ [] := fun h => by simp [h] at hqv
      simp only [if_pos rfl]
      by_cases hr : ((missingCount cells : ℚ) / (nrows : ℚ)) < 5 / 100
      · rw [if_pos hr]
        obtain ⟨m, hm⟩ := Option.isSome_iff_exists.mp (listMean_isSome _ hne)
        simp only [hm, Option.map_some']
        exact missingCount_fillCells_some cells (Value.num m)
      · rw [if_neg hr]
        obtain ⟨m, hm⟩ := Option.isSome_iff_exists.mp (listMedian_isSome _ hne)
        simp only [hm, Option.map_some']
        exact missingCount_fillCells_some cells (Value.num m)
  | false =>
    have hvmem : v ∈ cells.filterMap id := by
      simp only [List.mem_filterMap]
      exact ⟨some v, hc, rfl⟩
    have hne : cells.filterMap id ≠ [] := fun h => by simp [h] at hvmem
    obtain ⟨m, hm⟩ := Option.isSome_iff_exists.mp (listMode_isSome _ hne)
    simp only [Bool.false_eq_true, if_false, hm]
    exact missingCount_fillCells_some cells m

/-! ## Claim C2 -/

/-- C2: after the missing-value stage runs with the `"auto"` strategy
(the only strategy under which the source resolves columns at all — see
C1), every column that had at least one missing cell and at least one
non-missing value ends with zero missing cells, i.e. the recomputed
`remaining_missing` is 0.  Well-typedness of numeric columns (no string
cell under a numeric dtype, which pandas guarantees) is assumed. -/
theorem C2_theorem (p : CleanerParams) (s : PipelineState) (i : Nat)
    (hstrat : p.missing_strategy = "auto")
    (hrow : ∀ r ∈ s.cleaned.rows, r.length = s.cleaned.ncols)
    (hik : i < s.cleaned.ncols)
    (hty : s.cleaned.isNumericCol i = true →
      ∀ c ∈ s.cleaned.col i, cellNumOrMissing c = true)
    (hmc : missingCount (s.cleaned.col i) ≠ 0)
    (hsome : (s.cleaned.col i).any (fun c => c.isSome) = true) :
    missingCount ((handleMissingStage p s).cleaned.col i) = 0 := by
  simp only [handleMissingStage]
  rw [hstrat]
  rw [missing_fold_col_mem "auto" (List.range s.cleaned.ncols)
    (s.cleaned, s.report.columns_modified, []) i s.cleaned.ncols
    (List.nodup_range _) (List.mem_range.mpr hik) hrow hik]
  exact missingCount_fillCells_auto _ _ _ hmc hty hsome

def c2df : Dataset :=
  { colNames := ["v"], colTypes := [ColType.numeric],
    rows := [[some (Value.num 1)], [none]] }

def c2state : PipelineState := initState c2df

/-- C2 witness: a 2-row numeric column `[1, missing]` under `"auto"`
ends with no missing cells. -/
theorem C2_witness :
    missingCount ((handleMissingStage defaultParams c2state).cleaned.col 0) = 0 :=
  C2_theorem defaultParams c2state 0 (by decide) (by decide) (by decide)
    (by decide) (by decide) (by decide)

/-! ## Claim C7 -/

/-- C7: for a numeric column with at least one missing cell, the `"auto"`
strategy records an entry for the column in the missing-values report
whose `initial_missing` is the column's missing count and whose
`strategy_used` is `"mean"` exactly when
`missing_count / row_count < 0.05` (strict comparison, exact rational
arithmetic) and `"median"` otherwise; in particular a ratio of exactly
`0.05` yields `"median"`. -/
theorem C7_theorem (p : CleanerParams) (s : PipelineState) (i : Nat)
    (hstrat : p.missing_strategy = "auto")
    (hrow : ∀ r ∈ s.cleaned.rows, r.length = s.cleaned.ncols)
    (hik : i < s.cleaned.ncols)
    (hnum : s.cleaned.isNumericCol i = true)
    (hmc : missingCount (s.cleaned.col i) ≠ 0) :
    (((handleMissingStage p s).report.operations.missing_values.getD []).any
      (fun e => e.1 == s.cleaned.colNames.getD i "" &&
        e.2.initial_missing == missingCount (s.cleaned.col i) &&
        ((e.2.strategy_used == "mean") ==
          decide (((missingCount (s.cleaned.col i) : ℚ) / (s.cleaned.nrows : ℚ))
            < 5 / 100)) &&
        (e.2.strategy_used == "mean" || e.2.strategy_used == "median"))) = true := by
  simp only [handleMissingStage, Option.getD_some]
  rw [hstrat]
  apply List.any_eq_true.mpr
  refine ⟨missingEntry "auto" s.cleaned i, ?_, ?_⟩
  · exact missing_fold_rep_mem "auto" (List.range s.cleaned.ncols)
      (s.cleaned, s.report.columns_modified, []) i s.cleaned.ncols
      (List.nodup_range _) (List.mem_range.mpr hik) hrow hik hmc
  · simp only [missingEntry, missingStrategyUsed, if_pos rfl, hnum, if_true]
    by_cases hr : ((missingCount (s.cleaned.col i) : ℚ) / (s.cleaned.nrows : ℚ))
        < 5 / 100
    · simp [hr]
    · simp [hr]

def c7df : Dataset :=
  { colNames := ["v"], colTypes := [ColType.numeric],
    rows :=
      [[some (Value.num 0)], [some (Value.num 1)], [some (Value.num 2)],
       [some (Value.num 3)], [some (Value.num 4)], [some (Value.num 5)],
       [some (Value.num 6)], [some (Value.num 7)], [some (Value.num 8)],
       [some (Value.num 9)], [some (Value.num 10)], [some (Value.num 11)],
       [some (Value.num 12)], [some (Value.num 13)], [some (Value.num 14)],
       [some (Value.num 15)], [some (Value.num 16)], [some (Value.num 17)],
       [some (Value.num 18)], [none]] }

def c7state : PipelineState := initState c7df

/-- C7 witness, exercising the boundary: 20 rows with 1 missing cell give
ratio exactly `0.05`, so the reported strategy is `"median"` (and the
`"mean"` test evaluates to false). -/
theorem C7_witness :
    (((handleMissingStage defaultParams c7state).report.operations.missing_values.getD
      []).any
      (fun e => e.1 == c7state.cleaned.colNames.getD 0 "" &&
        e.2.initial_missing == missingCount (c7state.cleaned.col 0) &&
        ((e.2.strategy_used == "mean") ==
          decide (((missingCount (c7state.cleaned.col 0) : ℚ) /
            (c7state.cleaned.nrows : ℚ)) < 5 / 100)) &&
        (e.2.strategy_used == "mean" || e.2.strategy_used == "median"))) = true :=
  C7_theorem defaultParams c7state 0 (by decide) (by decide) (by decide)
    (by decide) (by decide)

/-! ## Claim C1 -/

def c1df : Dataset :=
  { colNames := ["name"], colTypes := [ColType.categorical],
    rows := [[some (Value.str "a")], [none]] }

def c1params : CleanerParams := { defaultParams with missing_strategy := "mean" }

/-- C1 counterexample: `c1df` has a single non-numeric column with a
missing cell; running the pipeline with the explicit numeric-only
strategy `"mean"` does not fail with any error (so in particular not
with a TypeMismatchError, which does not exist in the source) and does
not apply the strategy either: the cleaned dataset is returned
unchanged. -/
theorem C1_counterexample :
    c1df.colTypes = [ColType.categorical] ∧
    0 < missingCount (c1df.col 0) ∧
    (cleanDataState c1params c1df ["Handle missing values"]).map
      (fun s => s.cleaned) = Except.ok c1df := by
  refine ⟨rfl, by decide, ?_⟩
  with_unfolding_all decide

/-- C1 amended: an explicit non-`"auto"` strategy is not applied at all
(rather than "applied uniformly"): the missing-value stage leaves the
dataset completely unchanged, every reported column records
`strategy_used` equal to the requested strategy and
`remaining_missing = initial_missing`, and no error is raised for any
column type (the stage is total; no TypeMismatchError exists in the
source). -/
theorem C1_theorem (p : CleanerParams) (s : PipelineState)
    (hna : p.missing_strategy ≠ "auto") :
    (handleMissingStage p s).cleaned = s.cleaned ∧
    (((handleMissingStage p s).report.operations.missing_values.getD []).all
      (fun e => e.2.strategy_used == p.missing_strategy &&
        e.2.remaining_missing == e.2.initial_missing)) = true := by
  have h := missing_fold_nonauto p.missing_strategy hna
    (List.range s.cleaned.ncols) (s.cleaned, s.report.columns_modified, [])
  constructor
  · simp only [handleMissingStage]
    exact h.1
  · simp only [handleMissingStage, Option.getD_some]
    apply List.all_eq_true.mpr
    intro e he
    rcases h.2 e he with h1 | h2
    · simp at h1
    · simp [h2.1, h2.2]

/-- C1 witness: the amended statement instantiated at the concrete
counterexample data (strategy `"mean"`, one categorical column with one
missing cell). -/
theorem C1_witness :
    (handleMissingStage c1params (initState c1df)).cleaned = (initState c1df).cleaned ∧
    (((handleMissingStage c1params (initState c1df)).report.operations.missing_values.getD
      []).all
      (fun e => e.2.strategy_used == c1params.missing_strategy &&
        e.2.remaining_missing == e.2.initial_missing)) = true :=
  C1_theorem c1params (initState c1df) (by decide)

/-! ## Claim C8 -/

/-- Spec-side characterization of duplicate removal, written from the
claim's words: scan the rows in order carrying the list of all earlier
rows; a row survives exactly when it is not an exact duplicate (equality
of whole rows, i.e. across every column) of some earlier row. -/
def survivorsFrom {α : Type} [DecidableEq α] (earlier : List α) : List α → List α
  | [] => []
  | r :: rs =>
    if r ∈ earlier then survivorsFrom (earlier ++ [r]) rs
    else r :: survivorsFrom (earlier ++ [r]) rs

def survivors {α : Type} [DecidableEq α] (l : List α) : List α :=
  survivorsFrom [] l

theorem dedupFirstAux_sublist {α : Type} [DecidableEq α] (l seen : List α) :
    List.Sublist (dedupFirstAux seen l) l := by
  induction l generalizing seen with
  | nil => exact List.Sublist.refl []
  | cons r rs ih =>
    simp only [dedupFirstAux]
    split
    · exact List.Sublist.cons r (ih seen)
    · exact List.Sublist.cons₂ r (ih (seen ++ [r]))

theorem dedupFirstAux_eq_survivorsFrom {α : Type} [DecidableEq α]
    (l seen p : List α) (hmem : ∀ x, x ∈ seen ↔ x ∈ p) :
    dedupFirstAux seen l = survivorsFrom p l := by
  induction l generalizing seen p with
  | nil => rfl
  | cons r rs ih =>
    simp only [dedupFirstAux, survivorsFrom]
    have hstep : ∀ x, x ∈ seen ++ [r] ↔ x ∈ p ++ [r] := by
      intro x
      simp only [List.mem_append, List.mem_singleton, hmem x]
    by_cases hr : r ∈ p
    · rw [if_pos hr, if_pos ((hmem r).mpr hr)]
      apply ih
      intro x
      constructor
      · intro hx
        exact List.mem_append_left _ ((hmem x).mp hx)
      · intro hx
        rcases List.mem_append.mp hx with h1 | h2
        · exact (hmem x).mpr h1
        · rw [List.mem_singleton.mp h2]
          exact (hmem r).mpr hr
    · rw [if_neg hr, if_neg (fun h => hr ((hmem r).mp h))]
      rw [ih (seen ++ [r]) (p ++ [r]) hstep]

theorem dedupKeepFirst_eq_survivors {α : Type} [DecidableEq α] (l : List α) :
    dedupKeepFirst l = survivors l :=
  dedupFirstAux_eq_survivorsFrom l [] [] (fun _ => Iff.rfl)

theorem not_mem_seen_of_mem_dedupFirstAux {α : Type} [DecidableEq α]
    (l seen : List α) (x : α) (hx : x ∈ dedupFirstAux seen l) : x ∉ seen := by
  induction l generalizing seen with
  | nil => simp [dedupFirstAux] at hx
  | cons r rs ih =>
    simp only [dedupFirstAux] at hx
    split at hx
    · exact ih seen hx
    · rcases List.mem_cons.mp hx with rfl | h2
      · assumption
      · intro hxs
        exact ih (seen ++ [r]) h2 (List.mem_append_left _ hxs)

theorem nodup_dedupFirstAux {α : Type} [DecidableEq α] (l seen : List α) :
    (dedupFirstAux seen l).Nodup := by
  induction l generalizing seen with
  | nil => exact List.nodup_nil
  | cons r rs ih =>
    simp only [dedupFirstAux]
    split
    · exact ih seen
    · refine List.nodup_cons.mpr ⟨?_, ih (seen ++ [r])⟩
      intro hr
      exact not_mem_seen_of_mem_dedupFirstAux rs (seen ++ [r]) r hr
        (List.mem_append_right _ (by simp))

theorem mem_dedupFirstAux_of_mem {α : Type} [DecidableEq α]
    (l seen : List α) (x : α) (hx : x ∈ l) (hs : x ∉ seen) :
    x ∈ dedupFirstAux seen l := by
  induction l generalizing seen with
  | nil => simp at hx
  | cons r rs ih =>
    simp only [dedupFirstAux]
    rcases List.mem_cons.mp hx with rfl | h2
    · rw [if_neg hs]
      exact List.mem_cons_self _ _
    · split
      · exact ih seen h2 hs
      · by_cases hxr : x = r
        · rw [hxr]
          exact List.mem_cons_self _ _
        · refine List.mem_cons_of_mem _ (ih (seen ++ [r]) h2 ?_)
          intro hmem
          rcases List.mem_append.mp hmem with h3 | h4
          · exact hs h3
          · exact hxr (List.mem_singleton.mp h4)

def c8df : Dataset :=
  { colNames := ["A", "B"], colTypes := [ColType.numeric, ColType.numeric],
    rows :=
      [[some (Value.num 1), some (Value.num 2)],
       [some (Value.num 1), some (Value.num 2)],
       [some (Value.num 3), some (Value.num 4)]] }

/-- C8: the duplicate-removal stage (i) keeps exactly those rows that are
not exact duplicates, across every column, of an earlier row (spec-side
characterization `survivors`), so the first occurrence of each row
survives and the result has no duplicate rows while every original row
value still occurs; (ii) preserves the relative order of surviving rows
(sublist); (iii) reports `rows_removed = rows_before - rows_after` and
`percentage = rows_removed / rows_before * 100` (0 when there were zero
rows); and (iv) on the concrete rows `[[1,2],[1,2],[3,4]]` yields
`[[1,2],[3,4]]` with `rows_removed = 1` and `percentage = 100/3`. -/
theorem C8_theorem (s : PipelineState) :
    (removeDuplicatesStage s).cleaned.rows = survivors s.cleaned.rows ∧
    List.Sublist ((removeDuplicatesStage s).cleaned.rows) s.cleaned.rows ∧
    ((removeDuplicatesStage s).cleaned.rows).Nodup ∧
    (∀ row ∈ s.cleaned.rows, row ∈ (removeDuplicatesStage s).cleaned.rows) ∧
    (removeDuplicatesStage s).report.operations.duplicates =
      some { rows_removed := s.cleaned.nrows - (removeDuplicatesStage s).cleaned.nrows
             percentage :=
               if 0 < s.cleaned.nrows then
                 ((s.cleaned.nrows - (removeDuplicatesStage s).cleaned.nrows : Nat) : ℚ)
                   / (s.cleaned.nrows : ℚ) * 100
               else 0 } ∧
    (removeDuplicatesStage (initState c8df)).cleaned.rows =
      [[some (Value.num 1), some (Value.num 2)],
       [some (Value.num 3), some (Value.num 4)]] ∧
    (removeDuplicatesStage (initState c8df)).report.operations.duplicates =
      some { rows_removed := 1, percentage := 100 / 3 } := by
  refine ⟨?_, ?_, ?_, ?_, rfl, ?_, ?_⟩
  · simp only [removeDuplicatesStage]
    exact dedupKeepFirst_eq_survivors s.cleaned.rows
  · simp only [removeDuplicatesStage]
    exact dedupFirstAux_sublist s.cleaned.rows []
  · simp only [removeDuplicatesStage]
    exact nodup_dedupFirstAux s.cleaned.rows []
  · simp only [removeDuplicatesStage]
    intro row hrow
    exact mem_dedupFirstAux_of_mem s.cleaned.rows [] row hrow (by simp)
  · with_unfolding_all decide
  · with_unfolding_all decide

/-! ## Claim C3 -/

def c3df : Dataset :=
  { colNames := ["A"], colTypes := [ColType.numeric],
    rows := [[some (Value.num 1)]] }

/-- C3 counterexample: the code's supported set is the Title-case names,
not the snake-case set named by the claim: the operation name
`"Remove duplicates"` lies outside the claimed set
`{"remove_duplicates", ...}` yet `clean_data` accepts it and succeeds,
while the claimed name `"remove_duplicates"` is itself rejected. -/
theorem C3_counterexample :
    "Remove duplicates" ∈ supported_operations ∧
    "Remove duplicates" ∉
      ["remove_duplicates", "handle_missing_values", "remove_outliers",
       "normalize_data"] ∧
    (cleanDataState defaultParams c3df ["Remove duplicates"]).isOk = true ∧
    cleanDataState defaultParams c3df ["remove_duplicates"] =
      Except.error (CleanError.unsupportedOperations ["remove_duplicates"]) := by
  refine ⟨by decide, by decide, ?_, ?_⟩
  · with_unfolding_all decide
  · with_unfolding_all decide

/-- C3 amended: with the supported set as it appears in the code
(`["Remove duplicates", "Handle missing values", "Remove outliers",
"Normalize data"]`), `clean_data` on a non-empty dataset fails with the
ConfigurationError `unsupportedOperations` whenever any requested name
is unsupported, and the error carries exactly the invalid names (every
invalid requested name and nothing else). -/
theorem C3_theorem (p : CleanerParams) (df : Dataset) (ops : List String)
    (hne : df.isEmpty = false) (hinv : invalidOps ops ≠ []) :
    clean_data p df ops =
      Except.error (CleanError.unsupportedOperations (invalidOps ops)) ∧
    (CleanError.unsupportedOperations (invalidOps ops)).isConfigurationError = true ∧
    (ops.all (fun op => decide (op ∈ supported_operations) ||
       decide (op ∈ invalidOps ops))) = true ∧
    ((invalidOps ops).all (fun op => decide (op ∈ ops) &&
       decide (op ∉ supported_operations))) = true := by
  refine ⟨?_, rfl, ?_, ?_⟩
  · simp only [clean_data, cleanDataState, hne, Bool.false_eq_true, if_false,
      if_pos hinv]
    rfl
  · apply List.all_eq_true.mpr
    intro op hop
    by_cases hsup : op ∈ supported_operations
    · simp [hsup]
    · have : op ∈ invalidOps ops := by
        simp only [invalidOps, List.mem_filter, decide_eq_true_eq]
        exact ⟨hop, hsup⟩
      simp [this]
  · apply List.all_eq_true.mpr
    intro op hop
    simp only [invalidOps, List.mem_filter, decide_eq_true_eq] at hop
    simp [hop.1, hop.2]

/-- C3 witness: a request mixing a snake-case name and a bogus name on a
non-empty dataset fails with a ConfigurationError listing both. -/
theorem C3_witness :
    clean_data defaultParams c3df ["remove_duplicates", "Remove outliers", "bogus"] =
      Except.error (CleanError.unsupportedOperations
        (invalidOps ["remove_duplicates", "Remove outliers", "bogus"])) ∧
    (CleanError.unsupportedOperations
      (invalidOps ["remove_duplicates", "Remove outliers", "bogus"])).isConfigurationError
      = true ∧
    ((["remove_duplicates", "Remove outliers", "bogus"] : List String).all
      (fun op => decide (op ∈ supported_operations) ||
        decide (op ∈ invalidOps ["remove_duplicates", "Remove outliers", "bogus"]))) = true ∧
    ((invalidOps ["remove_duplicates", "Remove outliers", "bogus"]).all
      (fun op => decide (op ∈ ["remove_duplicates", "Remove outliers", "bogus"]) &&
        decide (op ∉ supported_operations))) = true :=
  C3_theorem defaultParams c3df ["remove_duplicates", "Remove outliers", "bogus"]
    (by decide) (by decide)

/-! ## Claim C4 -/

theorem outliers_bad_method (p : CleanerParams) (s : PipelineState)
    (hm1 : p.outlier_method ≠ "zscore") (hm2 : p.outlier_method ≠ "iqr")
    (hnum : numericIndices s.cleaned ≠ []) :
    handleOutliersStage p s =
      Except.error (CleanError.unsupportedOutlierMethod p.outlier_method) := by
  rcases hni : numericIndices s.cleaned with _ | ⟨j, rest⟩
  · exact absurd hni hnum
  · simp only [handleOutliersStage, hni, List.foldlM_cons, outStep, outlierFlags,
      if_neg hm1, if_neg hm2]
    rfl

theorem normalize_bad_method (p : CleanerParams) (s : PipelineState)
    (hm1 : p.normalization_method ≠ "standard")
    (hm2 : p.normalization_method ≠ "minmax")
    (hnum : numericIndices s.cleaned ≠ []) :
    normalizeStage p s =
      Except.error (CleanError.unsupportedNormalizationMethod p.normalization_method) := by
  simp only [normalizeStage]
  rw [if_pos (List.length_pos.mpr hnum), if_neg]
  rintro (h | h)
  · exact hm1 h
  · exact hm2 h

theorem applyOp_outliers (p : CleanerParams) (s : PipelineState) :
    applyOperation p s "Remove outliers" = handleOutliersStage p s := rfl

theorem applyOp_normalize (p : CleanerParams) (s : PipelineState) :
    applyOperation p s "Normalize data" = normalizeStage p s := rfl

/-- C4 amended: an unknown outlier-detection or normalization method is a
ConfigurationError only when the dataset has at least one numeric
column: the source raises the check inside the numeric-column loop
(resp. under the `len(numeric_columns) > 0` guard), so the error fires
for every dataset with a numeric column — and for none without (see the
counterexample). -/
theorem C4_theorem (p : CleanerParams) (df : Dataset)
    (hne : df.isEmpty = false) (hnum : numericIndices df ≠ []) :
    (p.outlier_method ≠ "zscore" → p.outlier_method ≠ "iqr" →
      clean_data p df ["Remove outliers"] =
        Except.error (CleanError.unsupportedOutlierMethod p.outlier_method)) ∧
    (p.normalization_method ≠ "standard" → p.normalization_method ≠ "minmax" →
      clean_data p df ["Normalize data"] =
        Except.error (CleanError.unsupportedNormalizationMethod p.normalization_method)) ∧
    (CleanError.unsupportedOutlierMethod p.outlier_method).isConfigurationError = true ∧
    (CleanError.unsupportedNormalizationMethod
      p.normalization_method).isConfigurationError = true := by
  have hiv1 : invalidOps ["Remove outliers"] = [] := by decide
  have hiv2 : invalidOps ["Normalize data"] = [] := by decide
  refine ⟨?_, ?_, rfl, rfl⟩
  · intro hm1 hm2
    have hstage := outliers_bad_method p (initState df) hm1 hm2 hnum
    simp only [clean_data, cleanDataState, hne, Bool.false_eq_true, if_false,
      hiv1, ne_eq, not_true_eq_false, List.foldlM_cons, List.foldlM_nil,
      applyOp_outliers, hstage]
    rfl
  · intro hm1 hm2
    have hstage := normalize_bad_method p (initState df) hm1 hm2 hnum
    simp only [clean_data, cleanDataState, hne, Bool.false_eq_true, if_false,
      hiv2, ne_eq, not_true_eq_false, List.foldlM_cons, List.foldlM_nil,
      applyOp_normalize, hstage]
    rfl

def c4catdf : Dataset :=
  { colNames := ["name"], colTypes := [ColType.categorical],
    rows := [[some (Value.str "a")]] }

def c4numdf : Dataset :=
  { colNames := ["v"], colTypes := [ColType.numeric],
    rows := [[some (Value.num 1)]] }

def c4params : CleanerParams :=
  { missing_strategy := "auto", outlier_method := "bogus",
    outlier_threshold := 3, normalization_method := "bogus" }

/-- C4 counterexample: on a dataset with no numeric columns, requesting
the unknown outlier method `"bogus"` and the unknown normalization
method `"bogus"` does not fail at all — both runs succeed — refuting
"fails with a ConfigurationError ... including datasets that contain no
numeric columns". -/
theorem C4_counterexample :
    numericIndices c4catdf = [] ∧
    c4params.outlier_method ∉ ["zscore", "iqr"] ∧
    c4params.normalization_method ∉ ["standard", "minmax"] ∧
    (cleanDataState c4params c4catdf ["Remove outliers"]).isOk = true ∧
    (cleanDataState c4params c4catdf ["Normalize data"]).isOk = true := by
  refine ⟨rfl, by decide, by decide, ?_, ?_⟩
  · with_unfolding_all decide
  · with_unfolding_all decide

/-- C4 witness: on a dataset with a numeric column the same bogus methods
do fail with the respective ConfigurationErrors. -/
theorem C4_witness :
    clean_data c4params c4numdf ["Remove outliers"] =
      Except.error (CleanError.unsupportedOutlierMethod c4params.outlier_method) ∧
    clean_data c4params c4numdf ["Normalize data"] =
      Except.error (CleanError.unsupportedNormalizationMethod
        c4params.normalization_method) :=
  ⟨(C4_theorem c4params c4numdf (by decide) (by decide)).1 (by decide) (by decide),
   (C4_theorem c4params c4numdf (by decide) (by decide)).2.1 (by decide) (by decide)⟩

/-! ## Zero-variance z-score lemmas and the outlier loop (claims C9, C5) -/

theorem addMod_nodup (l : List String) (x : String) (h : l.Nodup) :
    (addMod l x).Nodup := by
  simp only [addMod]
  split
  · exact h
  · next hx =>
    refine List.nodup_append.mpr ⟨h, List.nodup_singleton x, ?_⟩
    intro a ha hax
    exact hx ((List.mem_singleton.mp hax) ▸ ha)

theorem addMods_nodup (l : List String) (xs : List String) (h : l.Nodup) :
    (addMods l xs).Nodup := by
  induction xs generalizing l with
  | nil => exact h
  | cons x xs2 ih => exact ih (addMod l x) (addMod_nodup l x h)

theorem sampleVarNum_eq_zero (vals : List ℚ) (h : sampleVarNum vals = 0) :
    ∀ x ∈ vals, x = (listMean vals).getD 0 := by
  intro x hx
  simp only [sampleVarNum] at h
  have hmem : (x - (listMean vals).getD 0) ^ 2 ∈
      vals.map (fun v => (v - (listMean vals).getD 0) ^ 2) :=
    List.mem_map_of_mem _ hx
  have hnn : ∀ y ∈ vals.map (fun v => (v - (listMean vals).getD 0) ^ 2), 0 ≤ y := by
    intro y hy
    obtain ⟨v, hv, rfl⟩ := List.mem_map.mp hy
    exact sq_nonneg _
  have hle := List.single_le_sum hnn _ hmem
  rw [h] at hle
  have hz : (x - (listMean vals).getD 0) ^ 2 = 0 :=
    le_antisymm hle (sq_nonneg _)
  have := pow_eq_zero_iff (n := 2) (by norm_num) |>.mp hz
  linarith [this]

theorem zscoreFlag_false_of_var_zero (cells : List Cell) (t : ℚ)
    (hv : sampleVarNum (numVals cells) = 0) :
    ∀ c ∈ cells, zscoreFlagCell (numVals cells) t c = false := by
  intro c hc
  cases c with
  | none => rfl
  | some v =>
    cases v with
    | str a => rfl
    | num x =>
      have hx : x ∈ numVals cells := mem_numVals cells x hc
      have hxm := sampleVarNum_eq_zero _ hv x hx
      simp [zscoreFlagCell, hv, hxm]

theorem outlierFlags_length (m : String) (t : ℚ) (cells : List Cell)
    (flags : List Bool) (h : outlierFlags m t cells = Except.ok flags) :
    flags.length = cells.length := by
  simp only [outlierFlags] at h
  split at h
  · cases h
    simp
  · split at h
    · cases h
      simp
    · cases h

/-- Inversion of one iteration of the outlier loop: the shape of the
dataset is preserved, other columns are untouched, the modified-columns
set stays duplicate-free, and any new report entry is named after the
processed column. -/
theorem outStep_shape (m : String) (t : ℚ) (st : OState) (j : Nat) (st2 : OState)
    (h : outStep m t st j = Except.ok st2) :
    st2.1.colNames = st.1.colNames ∧ st2.1.colTypes = st.1.colTypes ∧
    st2.1.nrows = st.1.nrows ∧
    (∀ i, i ≠ j → st2.1.col i = st.1.col i) ∧
    (∀ e ∈ st2.2.2, e ∈ st.2.2 ∨ e.1 = st.1.colNames.getD j "") ∧
    (st.2.1.Nodup → st2.2.1.Nodup) ∧
    (∀ k, (∀ r ∈ st.1.rows, r.length = k) → ∀ r2 ∈ st2.1.rows, r2.length = k) := by
  simp only [outStep] at h
  split at h
  · cases h
  · next flags heq =>
    have hflen : flags.length = (st.1.col j).length := outlierFlags_length _ _ _ _ heq
    have hcslen :
        (List.zipWith (fun c f =>
          if f then
            (if ((listMedian (numVals (st.1.col j))).map Value.num).isSome then
              (listMedian (numVals (st.1.col j))).map Value.num
            else c)
          else c) (st.1.col j) flags).length = st.1.nrows := by
      rw [List.length_zipWith, hflen, Nat.min_self, length_col]
    split at h
    · cases h
      exact ⟨rfl, rfl, rfl, fun i hi => rfl, fun e he => Or.inl he, id, fun k hk => hk⟩
    · cases h
      refine ⟨rfl, rfl, setCol_nrows _ _ _ hcslen, ?_, ?_, ?_, ?_⟩
      · intro i hi
        exact col_setCol_ne _ _ _ _ hcslen hi
      · intro e he
        rcases List.mem_append.mp he with h1 | h2
        · exact Or.inl h1
        · right
          rw [List.mem_singleton.mp h2]
      · exact addMod_nodup _ _
      · intro k hk
        exact setCol_rowlens _ _ _ _ hk

theorem outStep_zscore_eq (t : ℚ) (st : OState) (j : Nat) :
    outStep "zscore" t st j =
      if ((st.1.col j).map (zscoreFlagCell (numVals (st.1.col j)) t)).count true = 0
      then Except.ok st
      else Except.ok
        (st.1.setCol j (List.zipWith
            (fun c f => if f then
                (if ((listMedian (numVals (st.1.col j))).map Value.num).isSome then
                  (listMedian (numVals (st.1.col j))).map Value.num
                else c)
              else c)
            (st.1.col j)
            ((st.1.col j).map (zscoreFlagCell (numVals (st.1.col j)) t))),
          addMod st.2.1 (st.1.colNames.getD j ""),
          st.2.2 ++ [(st.1.colNames.getD j "",
            { outliers_found :=
                ((st.1.col j).map (zscoreFlagCell (numVals (st.1.col j)) t)).count true
              percentage :=
                ((((st.1.col j).map
                  (zscoreFlagCell (numVals (st.1.col j)) t)).count true : ℚ)
                  / (st.1.nrows : ℚ)) * 100
              method := "zscore"
              threshold := t })]) := rfl

theorem outStep_zscore_count_zero (t : ℚ) (st : OState) (j : Nat)
    (hcnt : ((st.1.col j).map (zscoreFlagCell (numVals (st.1.col j)) t)).count true
      = 0) :
    outStep "zscore" t st j = Except.ok st := by
  rw [outStep_zscore_eq, if_pos hcnt]

theorem outStep_zscore_isOk (t : ℚ) (st : OState) (j : Nat) :
    ∃ st2, outStep "zscore" t st j = Except.ok st2 := by
  rw [outStep_zscore_eq]
  split
  · exact ⟨st, rfl⟩
  · exact ⟨_, rfl⟩

theorem outStep_zscore_skip (t : ℚ) (st : OState) (j : Nat)
    (hflags : ∀ c ∈ st.1.col j, zscoreFlagCell (numVals (st.1.col j)) t c = false) :
    outStep "zscore" t st j = Except.ok st := by
  apply outStep_zscore_count_zero
  apply List.count_eq_zero.mpr
  intro hmem
  obtain ⟨c, hc, hflag⟩ := List.mem_map.mp hmem
  rw [hflags c hc] at hflag
  cases hflag

/-- The outlier loop under `zscore` always succeeds; a column `i` whose
per-cell flags are all `false` is left untouched and never reported. -/
theorem out_fold_zscore (t : ℚ) (L : List Nat) (st : OState) (i : Nat)
    (hnd : L.Nodup)
    (hflags : ∀ c ∈ st.1.col i, zscoreFlagCell (numVals (st.1.col i)) t c = false) :
    ∃ res, L.foldlM (outStep "zscore" t) st = Except.ok res ∧
      res.1.col i = st.1.col i ∧
      res.1.colNames = st.1.colNames ∧
      (∀ e ∈ res.2.2, e ∈ st.2.2 ∨
        ∃ j, j ∈ L ∧ j ≠ i ∧ e.1 = st.1.colNames.getD j "") := by
  induction L generalizing st with
  | nil => exact ⟨st, rfl, rfl, rfl, fun e he => Or.inl he⟩
  | cons j L2 ih =>
    by_cases hji : j = i
    · subst hji
      have hskip := outStep_zscore_skip t st j hflags
      obtain ⟨res, hfold, hcol, hnames, hrep⟩ :=
        ih st (List.nodup_cons.mp hnd).2 hflags
      refine ⟨res, ?_, hcol, hnames, ?_⟩
      · rw [List.foldlM_cons, hskip]
        exact hfold
      · intro e he
        rcases hrep e he with h1 | ⟨j2, hj2, hji2, hname⟩
        · exact Or.inl h1
        · exact Or.inr ⟨j2, List.mem_cons_of_mem _ hj2, hji2, hname⟩
    · obtain ⟨st1, hst1⟩ := outStep_zscore_isOk t st j
      obtain ⟨hnm, hty, hnr, hcolne, hrep1, hmods, hlens⟩ :=
        outStep_shape "zscore" t st j st1 hst1
      have hcoli : st1.1.col i = st.1.col i := hcolne i (fun h => hji h.symm)
      have hflags1 :
          ∀ c ∈ st1.1.col i, zscoreFlagCell (numVals (st1.1.col i)) t c = false := by
        rw [hcoli]
        exact hflags
      obtain ⟨res, hfold, hcol, hnames, hrep⟩ :=
        ih st1 (List.nodup_cons.mp hnd).2 hflags1
      refine ⟨res, ?_, by rw [hcol, hcoli], by rw [hnames, hnm], ?_⟩
      · rw [List.foldlM_cons, hst1]
        exact hfold
      · intro e he
        rcases hrep e he with h1 | ⟨j2, hj2, hji2, hname⟩
        · rcases hrep1 e h1 with h2 | h3
          · exact Or.inl h2
          · exact Or.inr ⟨j, List.mem_cons_self _ _, hji, h3⟩
        · refine Or.inr ⟨j2, List.mem_cons_of_mem _ hj2, hji2, ?_⟩
          rw [hname, hnm]

/-! ## Claim C9 -/

/-- C9: under `zscore` outlier detection, a numeric column whose sample
standard deviation is zero (equivalently, whose sum of squared
deviations `sampleVarNum` is zero; this also covers the single-row NaN
std) has no cell flagged for any threshold, is left completely
unchanged by the stage, and is omitted from the outlier report
(assuming distinct column names, so that report keys identify
columns). -/
theorem C9_theorem (p : CleanerParams) (s : PipelineState) (i : Nat)
    (hm : p.outlier_method = "zscore")
    (hnum : s.cleaned.isNumericCol i = true)
    (hik : i < s.cleaned.ncols)
    (hvar : sampleVarNum (numVals (s.cleaned.col i)) = 0)
    (hnames : s.cleaned.colNames.Nodup) :
    ((s.cleaned.col i).all
      (fun c => !(zscoreFlagCell (numVals (s.cleaned.col i))
        p.outlier_threshold c))) = true ∧
    (handleOutliersStage p s).map (fun s2 => s2.cleaned.col i) =
      Except.ok (s.cleaned.col i) ∧
    (handleOutliersStage p s).map
      (fun s2 => (s2.report.operations.outliers.getD []).all
        (fun e => !(e.1 == s.cleaned.colNames.getD i ""))) = Except.ok true := by
  have hflags := zscoreFlag_false_of_var_zero (s.cleaned.col i) p.outlier_threshold hvar
  obtain ⟨res, hfold, hcol, hnm, hrep⟩ := out_fold_zscore p.outlier_threshold
    (numericIndices s.cleaned) (s.cleaned, s.report.columns_modified, []) i
    (List.Nodup.filter _ (List.nodup_range _)) hflags
  dsimp only at hcol hnm hrep
  have hstage : handleOutliersStage p s = Except.ok
      { s with
        cleaned := res.1
        report := { s.report with
          columns_modified := res.2.1
          operations := { s.report.operations with outliers := some res.2.2 } } } := by
    simp only [handleOutliersStage, hm, hfold]
    rfl
  refine ⟨?_, ?_, ?_⟩
  · apply List.all_eq_true.mpr
    intro c hc
    rw [hflags c hc]
    rfl
  · rw [hstage]
    exact congrArg Except.ok hcol
  · rw [hstage]
    refine congrArg Except.ok ?_
    apply List.all_eq_true.mpr
    intro e he
    rcases hrep e he with h1 | ⟨j, hj, hji, hname⟩
    · simp at h1
    · have hjlt : j < s.cleaned.ncols := by
        have := List.mem_filter.mp hj
        exact List.mem_range.mp this.1
      have hne2 : s.cleaned.colNames.getD j "" ≠ s.cleaned.colNames.getD i "" := by
        intro hequ
        apply hji
        have hjl : j < s.cleaned.colNames.length := hjlt
        have hil : i < s.cleaned.colNames.length := hik
        rw [List.getD_eq_getElem?_getD, List.getD_eq_getElem?_getD,
          List.getElem?_eq_getElem hjl, List.getElem?_eq_getElem hil] at hequ
        simp only [Option.getD_some] at hequ
        exact (List.Nodup.getElem_inj_iff hnames).mp hequ
      rw [hname]
      exact bne_iff_ne.mpr hne2

def c9df : Dataset :=
  { colNames := ["k", "w"], colTypes := [ColType.numeric, ColType.categorical],
    rows := [[some (Value.num 5), some (Value.str "a")],
             [some (Value.num 5), some (Value.str "b")]] }

def c9state : PipelineState := initState c9df

/-- C9 witness: a constant numeric column (std 0) under `zscore` with the
default threshold: no flags, column unchanged, column absent from the
outlier report. -/
theorem C9_witness :
    ((c9state.cleaned.col 0).all
      (fun c => !(zscoreFlagCell (numVals (c9state.cleaned.col 0))
        defaultParams.outlier_threshold c))) = true ∧
    (handleOutliersStage defaultParams c9state).map (fun s2 => s2.cleaned.col 0) =
      Except.ok (c9state.cleaned.col 0) ∧
    (handleOutliersStage defaultParams c9state).map
      (fun s2 => (s2.report.operations.outliers.getD []).all
        (fun e => !(e.1 == c9state.cleaned.colNames.getD 0 ""))) = Except.ok true :=
  C9_theorem defaultParams c9state 0 rfl (by decide) (by decide)
    (by with_unfolding_all decide) (by decide)

/-! ## Claim C10 -/

theorem except_bind_error_ne_ok {e1 a1 b1 : Type} (e : e1) (f : a1 → Except e1 b1)
    (b : b1) : (Except.error e >>= f) ≠ Except.ok b := fun h => Except.noConfusion h

theorem applyOperation_frame (p : CleanerParams) (s : PipelineState) (op : String)
    (s2 : PipelineState) (h : applyOperation p s op = Except.ok s2) :
    s2.caller = s.caller ∧ s2.original = s.original := by
  simp only [applyOperation] at h
  split at h
  · cases h
    exact ⟨rfl, rfl⟩
  · split at h
    · cases h
      exact ⟨rfl, rfl⟩
    · split at h
      · simp only [handleOutliersStage] at h
        rcases hf : (numericIndices s.cleaned).foldlM
            (outStep p.outlier_method p.outlier_threshold)
            (s.cleaned, s.report.columns_modified, []) with e | res
        · rw [hf] at h
          exact absurd h (except_bind_error_ne_ok _ _ _)
        · rw [hf] at h
          cases h
          exact ⟨rfl, rfl⟩
      · split at h
        · simp only [normalizeStage] at h
          split at h
          · split at h
            · cases h
              exact ⟨rfl, rfl⟩
            · cases h
          · cases h
            exact ⟨rfl, rfl⟩
        · cases h
          exact ⟨rfl, rfl⟩

theorem cleanOps_frame (p : CleanerParams) (ops : List String)
    (st res : PipelineState)
    (h : ops.foldlM (applyOperation p) st = Except.ok res) :
    res.caller = st.caller ∧ res.original = st.original := by
  induction ops generalizing st with
  | nil =>
    cases h
    exact ⟨rfl, rfl⟩
  | cons op ops2 ih =>
    rw [List.foldlM_cons] at h
    rcases hstep : applyOperation p st op with e | st1
    · rw [hstep] at h
      exact absurd h (except_bind_error_ne_ok _ _ _)
    · rw [hstep] at h
      have h2 : ops2.foldlM (applyOperation p) st1 = Except.ok res := h
      obtain ⟨h3, h4⟩ := ih st1 h2
      obtain ⟨h5, h6⟩ := applyOperation_frame p st op st1 hstep
      exact ⟨by rw [h3, h5], by rw [h4, h6]⟩

/-- C10: `clean_data` never modifies the dataset object the caller passed
in: the source copies `df` into `self.original_df` / `self.cleaned_df`
before any mutation and all stage writes target those copies, so the
`caller` field of the pipeline state (the caller's object) — and the
entry copy `original` — still equal the input dataset when the run
returns, and trivially on the error paths (where nothing is ever
written through `df` either). -/
theorem C10_theorem (p : CleanerParams) (df : Dataset) (ops : List String) :
    (cleanDataState p df ops).map (fun s => s.caller) =
      (cleanDataState p df ops).map (fun _ => df) ∧
    (cleanDataState p df ops).map (fun s => s.original) =
      (cleanDataState p df ops).map (fun _ => df) := by
  simp only [cleanDataState]
  split
  · exact ⟨rfl, rfl⟩
  · split
    · exact ⟨rfl, rfl⟩
    · rcases hf : ops.foldlM (applyOperation p) (initState df) with e | res
      · exact ⟨rfl, rfl⟩
      · obtain ⟨h1, h2⟩ := cleanOps_frame p ops (initState df) res hf
        exact ⟨congrArg Except.ok h1, congrArg Except.ok h2⟩

/-! ## Claim C5 -/

theorem missingStep_mods_nodup (strategy : String) (st : MState) (i : Nat)
    (h : st.2.1.Nodup) : (handleMissingColumn strategy st i).2.1.Nodup := by
  simp only [handleMissingColumn]
  split
  · exact h
  · split <;> exact addMod_nodup _ _ h

theorem missing_fold_mods_nodup (strategy : String) (L : List Nat) (st : MState)
    (h : st.2.1.Nodup) : (L.foldl (handleMissingColumn strategy) st).2.1.Nodup := by
  induction L generalizing st with
  | nil => exact h
  | cons j L2 ih =>
    rw [List.foldl_cons]
    exact ih _ (missingStep_mods_nodup strategy st j h)

theorem out_fold_mods_nodup (m : String) (t : ℚ) (L : List Nat) (st res : OState)
    (h : L.foldlM (outStep m t) st = Except.ok res) (hnd : st.2.1.Nodup) :
    res.2.1.Nodup := by
  induction L generalizing st with
  | nil =>
    cases h
    exact hnd
  | cons j L2 ih =>
    rw [List.foldlM_cons] at h
    rcases hstep : outStep m t st j with e | st1
    · rw [hstep] at h
      exact absurd h (except_bind_error_ne_ok _ _ _)
    · rw [hstep] at h
      have h2 : L2.foldlM (outStep m t) st1 = Except.ok res := h
      exact ih st1 h2 ((outStep_shape m t st j st1 hstep).2.2.2.2.2.1 hnd)

theorem applyOperation_mods_nodup (p : CleanerParams) (s : PipelineState)
    (op : String) (s2 : PipelineState) (h : applyOperation p s op = Except.ok s2)
    (hnd : s.report.columns_modified.Nodup) :
    s2.report.columns_modified.Nodup := by
  simp only [applyOperation] at h
  split at h
  · cases h
    simp only [removeDuplicatesStage]
    split
    · exact addMods_nodup _ _ hnd
    · exact hnd
  · split at h
    · cases h
      exact missing_fold_mods_nodup _ _ _ hnd
    · split at h
      · simp only [handleOutliersStage] at h
        rcases hf : (numericIndices s.cleaned).foldlM
            (outStep p.outlier_method p.outlier_threshold)
            (s.cleaned, s.report.columns_modified, []) with e | res
        · rw [hf] at h
          exact absurd h (except_bind_error_ne_ok _ _ _)
        · rw [hf] at h
          cases h
          exact out_fold_mods_nodup _ _ _ _ res hf hnd
      · split at h
        · simp only [normalizeStage] at h
          split at h
          · split at h
            · cases h
              exact addMods_nodup _ _ hnd
            · cases h
          · cases h
            exact hnd
        · cases h
          exact hnd

theorem cleanOps_mods_nodup (p : CleanerParams) (ops : List String)
    (st res : PipelineState)
    (h : ops.foldlM (applyOperation p) st = Except.ok res)
    (hnd : st.report.columns_modified.Nodup) :
    res.report.columns_modified.Nodup := by
  induction ops generalizing st with
  | nil =>
    cases h
    exact hnd
  | cons op ops2 ih =>
    rw [List.foldlM_cons] at h
    rcases hstep : applyOperation p st op with e | st1
    · rw [hstep] at h
      exact absurd h (except_bind_error_ne_ok _ _ _)
    · rw [hstep] at h
      have h2 : ops2.foldlM (applyOperation p) st1 = Except.ok res := h
      exact ih st1 h2 (applyOperation_mods_nodup p st op st1 hstep hnd)

/-- C5 amended: the finalized `columns_modified` is a duplicate-free list
of the touched column names in the order the stages first inserted them
into the set (the model of Python set-iteration order) — the source
applies no sort at finalization, so the order is NOT the column
declaration order (see the counterexample). -/
theorem C5_theorem (p : CleanerParams) (df : Dataset) (ops : List String)
    (s2 : PipelineState) (h : cleanDataState p df ops = Except.ok s2) :
    s2.report.columns_modified.Nodup := by
  simp only [cleanDataState] at h
  split at h
  · cases h
  · split at h
    · cases h
    · rcases hf : ops.foldlM (applyOperation p) (initState df) with e | res
      · rw [hf] at h
        exact absurd h (except_bind_error_ne_ok _ _ _)
      · rw [hf] at h
        cases h
        exact cleanOps_mods_nodup p ops (initState df) res hf List.nodup_nil

def c5df : Dataset :=
  { colNames := ["A", "B"], colTypes := [ColType.categorical, ColType.numeric],
    rows :=
      (List.replicate 10 [some (Value.str "x"), some (Value.num 0)]) ++
      [[none, some (Value.num 1000)]] }

/-- C5 counterexample: on `c5df` (declaration order `["A", "B"]`) the run
`["Remove outliers", "Handle missing values"]` first touches the numeric
column `B` (one z-score outlier) and then the categorical column `A`
(one missing cell), so the finalized `columns_modified` is `["B", "A"]`
— insertion order, not the column declaration order, refuting the
claimed ordering. -/
theorem C5_counterexample :
    c5df.colNames = ["A", "B"] ∧
    (cleanDataState defaultParams c5df
      ["Remove outliers", "Handle missing values"]).map
        (fun s => s.report.columns_modified) = Except.ok ["B", "A"] := by
  refine ⟨rfl, ?_⟩
  with_unfolding_all decide

def c5witState : PipelineState :=
  { caller := c3df, original := c3df, cleaned := c3df
    report :=
      { original_shape := (1, 1)
        operations :=
          { duplicates := some { rows_removed := 0, percentage := 0 }
            missing_values := none, outliers := none, normalization := none }
        columns_modified := []
        final_shape := some (1, 1)
        total_rows_removed := some 0 } }

/-- C5 witness: a concrete successful run whose finalized
`columns_modified` list is duplicate-free. -/
theorem C5_witness :
    cleanDataState defaultParams c3df ["Remove duplicates"] = Except.ok c5witState ∧
    c5witState.report.columns_modified.Nodup :=
  ⟨by with_unfolding_all decide,
   C5_theorem defaultParams c3df ["Remove duplicates"] c5witState
     (by with_unfolding_all decide)⟩

/-! ## Claim C6 -/

def c6df : Dataset :=
  { colNames := ["v"], colTypes := [ColType.numeric],
    rows := [[some (Value.num 1)], [none]] }

def c6params : CleanerParams := { defaultParams with missing_strategy := "mean" }

/-- C6 counterexample: the result of `clean_data` does not depend only on
`(dataset, operations)`: a fresh instance (default stored parameters)
fills the missing cell under `"auto"`, while an instance previously used
with `missing_strategy = "mean"` leaves it missing — same dataset, same
operation list, different results. -/
theorem C6_counterexample :
    clean_data defaultParams c6df ["Handle missing values"] ≠
      clean_data c6params c6df ["Handle missing values"] := by
  with_unfolding_all decide

/-- C6 amended: the pipeline's only cross-run state is the four stored
stage parameters: two runs on the same dataset and operation list whose
instances agree on `missing_strategy`, `outlier_method`,
`outlier_threshold` and `normalization_method` return identical
(cleaned dataset, report) pairs. -/
theorem C6_theorem (p1 p2 : CleanerParams) (df : Dataset) (ops : List String)
    (h1 : p1.missing_strategy = p2.missing_strategy)
    (h2 : p1.outlier_method = p2.outlier_method)
    (h3 : p1.outlier_threshold = p2.outlier_threshold)
    (h4 : p1.normalization_method = p2.normalization_method) :
    clean_data p1 df ops = clean_data p2 df ops := by
  have hp : p1 = p2 := by
    cases p1
    cases p2
    simp_all
  rw [hp]

/-- C6 witness: two syntactically distinct but equal parameter records
give identical runs on the counterexample dataset. -/
theorem C6_witness :
    clean_data defaultParams c6df ["Handle missing values"] =
      clean_data
        { missing_strategy := "auto", outlier_method := "zscore",
          outlier_threshold := 3, normalization_method := "standard" }
        c6df ["Handle missing values"] :=
  C6_theorem defaultParams
    { missing_strategy := "auto", outlier_method := "zscore",
      outlier_threshold := 3, normalization_method := "standard" }
    c6df ["Handle missing values"] rfl rfl rfl rfl

end DataCanvas
